import Mathlib

/-!
Verification of the fan-out subscription multiplexer and the two queue
provider adapters (polling / SQS style and event-driven / RabbitMQ style).

The JavaScript `Map` and `Set` objects of the source are embedded as
association lists with unique keys and duplicate-free lists; every
operation of the source (QueueGateway, SqsProvider, RabbitMqProvider) is
translated statement by statement into a pure Lean function that returns
the new state together with the observable effects (socket emits, facade
calls, backend/channel actions).
-/

namespace QueueMux

/-! ### Association-list maps with String keys (JS Map embedding) -/

/-- Lookup of the first binding of key `k` (JS `Map.get`). -/
def aGet {β : Type} (k : String) : List (String × β) → Option β
  | [] => none
  | (k1, v) :: rest => if k1 = k then some v else aGet k rest

/-- Remove every binding of key `k` (JS `Map.delete`). -/
def aDel {β : Type} (k : String) : List (String × β) → List (String × β)
  | [] => []
  | (k1, v) :: rest => if k1 = k then aDel k rest else (k1, v) :: aDel k rest

/-- Overwrite the binding of key `k` (JS `Map.set`). -/
def aSet {β : Type} (k : String) (v : β) (m : List (String × β)) :
    List (String × β) :=
  (k, v) :: aDel k m

/-- The keys of an association map. -/
def aKeys {β : Type} (m : List (String × β)) : List String := m.map (·.1)

/-- A map is well formed when its keys are pairwise distinct
(always true of a JS `Map`). -/
def WFmap {β : Type} (m : List (String × β)) : Prop := (aKeys m).Nodup

/-! ### Duplicate-free string lists (JS Set embedding) -/

/-- JS `Set.add`: append unless already present (insertion order kept). -/
def sAdd (q : String) (s : List String) : List String :=
  if q ∈ s then s else s ++ [q]

/-- JS `Set.delete`: remove all occurrences. -/
def sDel (q : String) (s : List String) : List String :=
  s.filter (fun x => x ≠ q)

/-! ### Data model: queue messages (src/src/queue — interfaces/queue, QueueMessage) -/

/-- `QueueMessage` of interfaces/queue: optional id, string body, optional
flat string-to-string attribute map. -/
structure QueueMessage where
  id : Option String
  body : String
  attributes : Option (List (String × String))
deriving DecidableEq, Repr

/-! ### Subscription Multiplexer (QueueGateway of src/unnamed/part_010) -/

/-- The gateway's two registries: `clientSubscriptions` (clientId to
interest-set) and `queueHandlers` (queue names with a registered fan-out
handler; every registered handler is the same closure parameterized by the
queue name, so only key presence is recorded). -/
structure GatewayState where
  clientSubscriptions : List (String × List String)
  queueHandlers : List String
deriving DecidableEq, Repr

/-- Socket events emitted by the gateway. -/
inductive Emit where
  | subscribed (queueName : String) (already : Bool)
  | unsubscribed (queueName : String)
  | message (clientId : String) (queueName : String) (m : QueueMessage)
deriving DecidableEq, Repr

/-- Calls issued to the Queue Access Facade (QueueService). -/
inductive FacadeCall where
  | subscribe (queueName : String)
  | unsubscribe (queueName : String)
deriving DecidableEq, Repr

/-- Outcome of one gateway request handler: new state, socket emits,
facade calls, and whether a facade error propagated to the caller. -/
structure OpResult where
  state : GatewayState
  emits : List Emit
  calls : List FacadeCall
  threw : Bool
deriving DecidableEq, Repr

/-- `handleConnection`: create an empty interest-set for the client. -/
def handleConnection (c : String) (s : GatewayState) : GatewayState :=
  { s with clientSubscriptions := aSet c [] s.clientSubscriptions }

/-- `handleSubscribe` (part_010 lines 66-124). `facadeOk` is the outcome of
the awaited `queueService.subscribe` call; mirroring the source, the
handler is recorded in `queueHandlers` before that await, and a facade
failure propagates after that mutation, before the interest-set is touched. -/
def handleSubscribe (facadeOk : Bool) (c q : String) (s : GatewayState) : OpResult :=
  let subs? := aGet c s.clientSubscriptions
  if q ∈ subs?.getD [] then
    ⟨s, [Emit.subscribed q true], [], false⟩
  else if q ∈ s.queueHandlers then
    let newSubs :=
      match subs? with
      | none => aSet c [q] s.clientSubscriptions
      | some l => aSet c (sAdd q l) s.clientSubscriptions
    ⟨{ s with clientSubscriptions := newSubs }, [Emit.subscribed q false], [], false⟩
  else
    let s1 := { s with queueHandlers := s.queueHandlers ++ [q] }
    if facadeOk then
      let newSubs :=
        match subs? with
        | none => aSet c [q] s1.clientSubscriptions
        | some l => aSet c (sAdd q l) s1.clientSubscriptions
      ⟨{ s1 with clientSubscriptions := newSubs }, [Emit.subscribed q false],
        [FacadeCall.subscribe q], false⟩
    else
      ⟨s1, [], [FacadeCall.subscribe q], true⟩

/-- `unsubscribeFromQueue` (part_010 lines 173-206). `facadeUnsubOk` is the
outcome of the asynchronous `queueService.unsubscribe`; the `.then`
continuation deletes the handler entry only on success, and a failure is
only logged. The returned list records the facade calls issued. -/
def unsubscribeFromQueue (facadeUnsubOk : Bool) (c q : String) (s : GatewayState) :
    GatewayState × List FacadeCall :=
  let l := (aGet c s.clientSubscriptions).getD []
  if q ∈ l then
    let subs1 := aSet c (sDel q l) s.clientSubscriptions
    let hasOther := subs1.any (fun p => q ∈ p.2)
    if hasOther then
      ({ s with clientSubscriptions := subs1 }, [])
    else if facadeUnsubOk then
      ({ s with clientSubscriptions := subs1,
                queueHandlers := sDel q s.queueHandlers },
        [FacadeCall.unsubscribe q])
    else
      ({ s with clientSubscriptions := subs1 }, [FacadeCall.unsubscribe q])
  else (s, [])

/-- `handleUnsubscribe` (part_010 lines 134-146): run the removal, then
emit the success confirmation unconditionally. -/
def handleUnsubscribe (facadeUnsubOk : Bool) (c q : String) (s : GatewayState) : OpResult :=
  let r := unsubscribeFromQueue facadeUnsubOk c q s
  ⟨r.1, [Emit.unsubscribed q], r.2, false⟩

/-- One iteration of the disconnect cleanup loop: run
`unsubscribeFromQueue` on the current state and append its facade calls. -/
def disconnectStep (ok : String → Bool) (c : String)
    (acc : GatewayState × List FacadeCall) (q : String) :
    GatewayState × List FacadeCall :=
  let r1 := unsubscribeFromQueue (ok q) c q acc.1
  (r1.1, acc.2 ++ r1.2)

/-- `handleDisconnect` (part_010 lines 46-56): run `unsubscribeFromQueue`
for every queue in the client's interest-set, then delete the entry.
`ok` gives the facade-unsubscribe outcome per queue. -/
def handleDisconnect (ok : String → Bool) (c : String) (s : GatewayState) :
    GatewayState × List FacadeCall :=
  let l := (aGet c s.clientSubscriptions).getD []
  let r := l.foldl (disconnectStep ok c) (s, [])
  ({ r.1 with clientSubscriptions := aDel c r.1.clientSubscriptions }, r.2)

/-- The fan-out handler's recipient list (part_010 lines 85-87): every
client whose interest-set currently contains the queue, in registry order. -/
def fanoutRecipients (q : String) (subs : List (String × List String)) : List String :=
  (subs.filter (fun p => decide (q ∈ p.2))).map (·.1)

/-- The fan-out handler's delivery loop (part_010 lines 89-97), assuming no
send throws: emit the message to each recipient whose socket is live. -/
def fanout (q : String) (subs : List (String × List String))
    (socks : List String) (m : QueueMessage) : List Emit :=
  (fanoutRecipients q subs).filterMap
    (fun cid => if cid ∈ socks then some (Emit.message cid q m) else none)

/-- The same delivery loop when `socket.emit` may throw (`fails cid` means
the send to `cid` throws). The source has no try/catch inside the loop, so
a throw propagates and ends the iteration; the result is the list of
clients that were sent the message before the first throwing send. -/
def fanoutDelivered (fails : String → Bool) (socks : List String) :
    List String → List String
  | [] => []
  | c :: rest =>
    if c ∈ socks then
      if fails c then []
      else c :: fanoutDelivered fails socks rest
    else fanoutDelivered fails socks rest

/-- The registry invariant of the spec, stated with bounded quantifiers:
a queue is a handler key iff some connection's interest-set contains it. -/
def registryInv (s : GatewayState) : Prop :=
  (∀ q ∈ s.queueHandlers, ∃ p ∈ s.clientSubscriptions, q ∈ p.2) ∧
  (∀ p ∈ s.clientSubscriptions, ∀ q ∈ p.2, q ∈ s.queueHandlers)

/-- Well-formedness: the client registry is a genuine map. -/
def gatewayWF (s : GatewayState) : Prop := WFmap s.clientSubscriptions

/-- Whether some connection other than `c` currently holds `q` in its
interest-set. -/
def othersHold (s : GatewayState) (c q : String) : Bool :=
  (aDel c s.clientSubscriptions).any (fun p => decide (q ∈ p.2))

/-! ### Polling adapter (SqsProvider, second document of
src/src/queue/queue.gateway.spec.ts) -/

/-- One SQS message attribute as the translation loop sees it:
`stringValue` is `some s` exactly when the raw attribute is an object with
a string-typed `StringValue` field. -/
structure SqsMessageAttr where
  stringValue : Option String
deriving DecidableEq, Repr

/-- A raw message returned by `ReceiveMessage`. -/
structure SqsMessage where
  messageId : Option String
  body : Option String
  receiptHandle : Option String
  messageAttributes : List (String × SqsMessageAttr)
deriving DecidableEq, Repr

/-- Attribute translation (lines 600-614): keep exactly the attributes with
a string `StringValue`. -/
def translateSqsAttributes (attrs : List (String × SqsMessageAttr)) :
    List (String × String) :=
  attrs.filterMap (fun p => p.2.stringValue.map (fun v => (p.1, v)))

/-- Message translation (lines 616-621): id copied, missing body replaced
by the empty string, attribute map dropped when empty. -/
def translateSqsMessage (m : SqsMessage) : QueueMessage :=
  let attributes := translateSqsAttributes m.messageAttributes
  { id := m.messageId
    body := (m.body).getD ""
    attributes := if attributes.isEmpty then none else some attributes }

/-- Observable events of one poll cycle. `time` counts the asynchronous
suspension points (awaits) passed since the cycle was triggered, so state
read at `time` is the live state after that many suspensions. -/
inductive PollEvent where
  | handlerInvoked (time : Nat) (m : QueueMessage) (ok : Bool)
  | deleteIssued (time : Nat) (receiptHandle : String)
deriving DecidableEq, Repr

/-- The per-message loop of `pollMessages` (lines 598-648). `live t` is the
`subscribedQueues.has(queueName)` check at suspension index `t`; `hres`
is the user handler's outcome (`false` = it throws). On a dead check the
loop returns, abandoning the rest of the batch; on a handler throw the
per-message catch logs, issues no delete, and continues with the next
message; on success the delete is issued when a receipt handle exists. -/
def processBatch (live : Nat → Bool) (hres : QueueMessage → Bool) :
    Nat → List SqsMessage → List PollEvent
  | _, [] => []
  | t, m :: rest =>
    if live t then
      let qm := translateSqsMessage m
      if hres qm then
        match m.receiptHandle with
        | some r =>
          PollEvent.handlerInvoked t qm true ::
            PollEvent.deleteIssued (t + 1) r :: processBatch live hres (t + 2) rest
        | none => PollEvent.handlerInvoked t qm true :: processBatch live hres (t + 1) rest
      else
        PollEvent.handlerInvoked t qm false :: processBatch live hres (t + 1) rest
    else []

/-- One whole `pollMessages` cycle (lines 574-656) triggered at suspension
index `t`: liveness check on entry, the receive await, a second liveness
check, then the batch loop. -/
def pollCycle (live : Nat → Bool) (hres : QueueMessage → Bool) (t : Nat)
    (msgs : List SqsMessage) : List PollEvent :=
  if live t then
    (if live (t + 1) then processBatch live hres (t + 2) msgs else [])
  else []

/-- Adapter-local state of SqsProvider. -/
structure SqsState where
  queueUrls : List (String × String)
  pollingIntervals : List (String × Nat)
  subscribedQueues : List String
  nextIntervalId : Nat
deriving DecidableEq, Repr

/-- Local bookkeeping actions of SqsProvider, in program order. -/
inductive SqsAction where
  | removeLive (q : String)
  | clearTimer (id : Nat)
  | markLive (q : String)
  | pollTriggered (q : String)
  | scheduleTimer (q : String) (id : Nat)
deriving DecidableEq, Repr

/-- `SqsProvider.unsubscribe` (lines 690-701): delete from the live-set
first, then cancel and discard the repeating schedule if one exists. -/
def sqsUnsubscribe (s : SqsState) (q : String) : SqsState × List SqsAction :=
  let s1 := { s with subscribedQueues := sDel q s.subscribedQueues }
  match aGet q s.pollingIntervals with
  | some id =>
    ({ s1 with pollingIntervals := aDel q s1.pollingIntervals },
      [SqsAction.removeLive q, SqsAction.clearTimer id])
  | none => (s1, [SqsAction.removeLive q])

/-- `SqsProvider.subscribe` (lines 560-688), after a successful
`getQueueUrl`: tear down any existing registration (live-set entry and
timer), then mark live, trigger one poll, and install the new timer. -/
def sqsSubscribe (s : SqsState) (q : String) : SqsState × List SqsAction :=
  let r :=
    match aGet q s.pollingIntervals with
    | some id =>
      ({ s with subscribedQueues := sDel q s.subscribedQueues,
                pollingIntervals := aDel q s.pollingIntervals },
        [SqsAction.removeLive q, SqsAction.clearTimer id])
    | none => (s, ([] : List SqsAction))
  let s1 := r.1
  let newId := s1.nextIntervalId
  ({ s1 with subscribedQueues := sAdd q s1.subscribedQueues,
             pollingIntervals := aSet q newId s1.pollingIntervals,
             nextIntervalId := newId + 1 },
    r.2 ++ [SqsAction.markLive q, SqsAction.pollTriggered q,
            SqsAction.scheduleTimer q newId])

/-! ### Event-driven adapter (RabbitMqProvider, src/unnamed/part_005) -/

/-- A RabbitMQ header value as the translation loop distinguishes them. -/
inductive RabbitHeaderValue where
  | str (s : String)
  | num (n : Int)
  | boolean (b : Bool)
  | other
deriving DecidableEq, Repr

/-- Header coercion (lines 160-169): strings kept, numbers and booleans
coerced through JS `String(value)`, every other type dropped. -/
def coerceHeaderValue : RabbitHeaderValue → Option String
  | RabbitHeaderValue.str s => some s
  | RabbitHeaderValue.num n => some (toString n)
  | RabbitHeaderValue.boolean b => some (if b then "true" else "false")
  | RabbitHeaderValue.other => none

/-- Header map translation into the flat attribute map. -/
def translateRabbitHeaders (headers : List (String × RabbitHeaderValue)) :
    List (String × String) :=
  headers.filterMap (fun p => (coerceHeaderValue p.2).map (fun v => (p.1, v)))

/-- A delivery pushed by the broker. -/
structure RabbitDelivery where
  messageId : Option String
  content : String
  headers : List (String × RabbitHeaderValue)
deriving DecidableEq, Repr

/-- Delivery translation (lines 156-182): coerced headers, decoded body,
attribute map dropped when empty. -/
def translateRabbitDelivery (m : RabbitDelivery) : QueueMessage :=
  let attributes := translateRabbitHeaders m.headers
  { id := m.messageId
    body := m.content
    attributes := if attributes.isEmpty then none else some attributes }

/-- Channel-level acknowledgment actions; `nack allUpTo requeue` mirrors
`channel.nack(msg, allUpTo, requeue)`. -/
inductive DeliveryAction where
  | ack
  | nack (allUpTo : Bool) (requeue : Bool)
deriving DecidableEq, Repr

/-- The consume callback (lines 148-197): a null delivery is ignored;
otherwise the message is translated and handed to the user handler, then
acked on success and nacked-with-requeue on a handler throw. Returns the
handler invocations and the channel actions issued. -/
def consumeCallback (hres : QueueMessage → Bool) (msg? : Option RabbitDelivery) :
    List QueueMessage × List DeliveryAction :=
  match msg? with
  | none => ([], [])
  | some m =>
    let qm := translateRabbitDelivery m
    if hres qm then ([qm], [DeliveryAction.ack])
    else ([qm], [DeliveryAction.nack false true])

/-- Adapter-local state of RabbitMqProvider: the consumer-tag registry. -/
structure RabbitState where
  consumers : List (String × String)
deriving DecidableEq, Repr

/-- Channel operations issued by subscribe/unsubscribe. -/
inductive ChannelAction where
  | assertQueue (q : String)
  | cancel (tag : String)
  | consume (q : String) (tag : String)
deriving DecidableEq, Repr

/-- `RabbitMqProvider.unsubscribe` (lines 214-229), channel present: cancel
the registered consumer tag and discard it; a no-op when none is
registered. -/
def rabbitUnsubscribe (s : RabbitState) (q : String) : RabbitState × List ChannelAction :=
  match aGet q s.consumers with
  | some tag =>
    ({ consumers := aDel q s.consumers }, [ChannelAction.cancel tag])
  | none => (s, [])

/-- `RabbitMqProvider.subscribe` (lines 136-212): assert the queue, cancel
any existing consumer via `unsubscribe`, then register the new consumer;
`newTag` is the tag the broker assigns to the new registration. -/
def rabbitSubscribe (s : RabbitState) (q : String) (newTag : String) :
    RabbitState × List ChannelAction :=
  let r :=
    if (aGet q s.consumers).isSome then rabbitUnsubscribe s q
    else (s, ([] : List ChannelAction))
  ({ consumers := aSet q newTag r.1.consumers },
    ChannelAction.assertQueue q :: r.2 ++ [ChannelAction.consume q newTag])

/-! ### Observation helpers -/

/-- Handler invocations of a poll cycle, in order. -/
def handlerCalls (events : List PollEvent) : List QueueMessage :=
  events.filterMap (fun e =>
    match e with
    | PollEvent.handlerInvoked _ m _ => some m
    | PollEvent.deleteIssued _ _ => none)

/-- Receipt handles of the delete commands a poll cycle issues, in order. -/
def deleteReceipts (events : List PollEvent) : List String :=
  events.filterMap (fun e =>
    match e with
    | PollEvent.handlerInvoked _ _ _ => none
    | PollEvent.deleteIssued _ r => some r)

/-- The publish-side body validation of dtos/queue-message.ts
(`IsString` with `IsNotEmpty` on `body`). -/
def publishBodyAccepted (m : QueueMessage) : Bool := !(m.body == "")

/-- A concrete liveness trace for witnesses: the queue stays in the
live-set up to suspension index 4 and an unsubscribe removes it at 5. -/
def liveUntil5 : Nat → Bool := fun t => decide (t < 5)

/-- A concrete received message for witnesses. -/
def sqsMsg0 : SqsMessage := ⟨some "m1", some "hello", some "r1", []⟩

/-! ### Toolkit lemmas -/

theorem mem_sAdd {x q : String} {s : List String} :
    x ∈ sAdd q s ↔ x ∈ s ∨ x = q := by
  unfold sAdd
  by_cases h : q ∈ s
  · rw [if_pos h]
    constructor
    · exact Or.inl
    · rintro (hx | rfl)
      · exact hx
      · exact h
  · rw [if_neg h]
    simp

theorem mem_sDel {x q : String} {s : List String} :
    x ∈ sDel q s ↔ x ∈ s ∧ x ≠ q := by
  simp [sDel]

theorem sDel_of_not_mem {q : String} {s : List String} (h : q ∉ s) :
    sDel q s = s := by
  unfold sDel
  apply List.filter_eq_self.mpr
  intro a ha
  simp only [ne_eq, decide_not, Bool.not_eq_eq_eq_not, Bool.not_true, decide_eq_false_iff_not]
  intro hEq
  exact h (hEq ▸ ha)

/-! ### Association-map lemmas -/

theorem aKeys_cons {β : Type} {k1 : String} {v : β} {m : List (String × β)} :
    aKeys ((k1, v) :: m) = k1 :: aKeys m := rfl

theorem aGet_cons {β : Type} {k k1 : String} {v : β} {m : List (String × β)} :
    aGet k ((k1, v) :: m) = if k1 = k then some v else aGet k m := rfl

theorem aDel_cons {β : Type} {k k1 : String} {v : β} {m : List (String × β)} :
    aDel k ((k1, v) :: m) = if k1 = k then aDel k m else (k1, v) :: aDel k m := rfl

theorem aGet_aDel_self {β : Type} {k : String} {m : List (String × β)} :
    aGet k (aDel k m) = none := by
  induction m with
  | nil => rfl
  | cons p rest ih =>
    obtain ⟨k1, v⟩ := p
    by_cases h : k1 = k
    · rw [aDel_cons, if_pos h]
      exact ih
    · rw [aDel_cons, if_neg h, aGet_cons, if_neg h]
      exact ih

theorem aGet_aDel_ne {β : Type} {k k1 : String} {m : List (String × β)}
    (h : k1 ≠ k) : aGet k1 (aDel k m) = aGet k1 m := by
  induction m with
  | nil => rfl
  | cons p rest ih =>
    obtain ⟨k2, v⟩ := p
    by_cases h2 : k2 = k
    · have hne : ¬ (k2 = k1) := fun hEq => h (hEq ▸ h2)
      rw [aDel_cons, if_pos h2, aGet_cons, if_neg hne]
      exact ih
    · rw [aDel_cons, if_neg h2, aGet_cons, aGet_cons]
      by_cases h3 : k2 = k1
      · rw [if_pos h3, if_pos h3]
      · rw [if_neg h3, if_neg h3]
        exact ih

theorem aGet_aSet_self {β : Type} {k : String} {v : β} {m : List (String × β)} :
    aGet k (aSet k v m) = some v := by
  simp [aSet, aGet]

theorem aGet_aSet_ne {β : Type} {k k1 : String} {v : β} {m : List (String × β)}
    (h : k1 ≠ k) : aGet k1 (aSet k v m) = aGet k1 m := by
  have : ¬ (k = k1) := fun hEq => h hEq.symm
  simp [aSet, aGet, this, aGet_aDel_ne h]

theorem mem_aDel {β : Type} {k : String} {p : String × β} {m : List (String × β)} :
    p ∈ aDel k m ↔ p ∈ m ∧ p.1 ≠ k := by
  induction m with
  | nil => simp [aDel]
  | cons q rest ih =>
    obtain ⟨k1, v⟩ := q
    by_cases h : k1 = k
    · subst h
      rw [aDel_cons, if_pos rfl, ih]
      constructor
      · rintro ⟨hm, hne⟩
        exact ⟨List.mem_cons_of_mem _ hm, hne⟩
      · rintro ⟨hm, hne⟩
        rcases List.mem_cons.mp hm with hEq | hm2
        · exact absurd (by rw [hEq]) hne
        · exact ⟨hm2, hne⟩
    · rw [aDel_cons, if_neg h]
      constructor
      · intro hmem
        rcases List.mem_cons.mp hmem with hEq | hm2
        · subst hEq
          exact ⟨List.mem_cons_self _ _, h⟩
        · obtain ⟨hm3, hne⟩ := ih.mp hm2
          exact ⟨List.mem_cons_of_mem _ hm3, hne⟩
      · rintro ⟨hmem, hne⟩
        rcases List.mem_cons.mp hmem with hEq | hm2
        · subst hEq
          exact List.mem_cons_self _ _
        · exact List.mem_cons_of_mem _ (ih.mpr ⟨hm2, hne⟩)

theorem aGet_mem {β : Type} {k : String} {v : β} {m : List (String × β)}
    (h : aGet k m = some v) : (k, v) ∈ m := by
  induction m with
  | nil => simp [aGet] at h
  | cons p rest ih =>
    obtain ⟨k1, v1⟩ := p
    by_cases hk : k1 = k
    · subst hk
      rw [aGet_cons, if_pos rfl] at h
      injection h with h2
      subst h2
      exact List.mem_cons_self _ _
    · rw [aGet_cons, if_neg hk] at h
      exact List.mem_cons_of_mem _ (ih h)

theorem aGet_eq_none_of_not_mem_keys {β : Type} {k : String}
    {m : List (String × β)} (h : k ∉ aKeys m) : aGet k m = none := by
  induction m with
  | nil => rfl
  | cons p rest ih =>
    obtain ⟨k1, v⟩ := p
    rw [aKeys_cons] at h
    simp only [List.mem_cons, not_or] at h
    have h1 : ¬ (k1 = k) := fun hEq => h.1 hEq.symm
    rw [aGet_cons, if_neg h1]
    exact ih h.2

theorem aGet_eq_none_iff {β : Type} {k : String} {m : List (String × β)} :
    aGet k m = none ↔ ∀ p ∈ m, p.1 ≠ k := by
  induction m with
  | nil => simp [aGet]
  | cons p rest ih =>
    obtain ⟨k1, v⟩ := p
    by_cases hk : k1 = k
    · rw [aGet_cons, if_pos hk]
      simp only [List.mem_cons]
      constructor
      · intro h
        exact absurd h (by simp)
      · intro h
        exact absurd hk (h (k1, v) (Or.inl rfl))
    · rw [aGet_cons, if_neg hk, ih]
      simp only [List.mem_cons]
      constructor
      · intro h p2 hp2
        rcases hp2 with hEq | hm
        · rw [hEq]
          exact hk
        · exact h p2 hm
      · intro h p2 hm
        exact h p2 (Or.inr hm)

theorem aDel_idem {β : Type} {k : String} {m : List (String × β)} :
    aDel k (aDel k m) = aDel k m := by
  induction m with
  | nil => rfl
  | cons p rest ih =>
    obtain ⟨k1, v⟩ := p
    by_cases hk : k1 = k
    · rw [aDel_cons, if_pos hk, ih]
    · rw [aDel_cons, if_neg hk, aDel_cons, if_neg hk, ih]

theorem aDel_aSet_self {β : Type} {k : String} {v : β} {m : List (String × β)} :
    aDel k (aSet k v m) = aDel k m := by
  rw [aSet, aDel_cons, if_pos rfl, aDel_idem]

theorem aDel_of_aGet_none {β : Type} {k : String} {m : List (String × β)}
    (h : aGet k m = none) : aDel k m = m := by
  induction m with
  | nil => rfl
  | cons p rest ih =>
    obtain ⟨k1, v⟩ := p
    by_cases hk : k1 = k
    · rw [aGet_cons, if_pos hk] at h
      exact absurd h (by simp)
    · rw [aGet_cons, if_neg hk] at h
      rw [aDel_cons, if_neg hk, ih h]

theorem mem_aKeys {β : Type} {k : String} {m : List (String × β)} :
    k ∈ aKeys m ↔ ∃ p ∈ m, p.1 = k := by
  simp [aKeys]

theorem WFmap_aDel {β : Type} {k : String} {m : List (String × β)}
    (h : WFmap m) : WFmap (aDel k m) := by
  induction m with
  | nil => exact h
  | cons p rest ih =>
    obtain ⟨k1, v⟩ := p
    rw [WFmap, aKeys_cons, List.nodup_cons] at h
    by_cases hk : k1 = k
    · rw [aDel_cons, if_pos hk]
      exact ih h.2
    · rw [aDel_cons, if_neg hk, WFmap, aKeys_cons, List.nodup_cons]
      refine ⟨?_, ih h.2⟩
      intro hmem
      obtain ⟨p2, hp2, hEq⟩ := mem_aKeys.mp hmem
      exact h.1 (mem_aKeys.mpr ⟨p2, (mem_aDel.mp hp2).1, hEq⟩)

theorem WFmap_aSet {β : Type} {k : String} {v : β} {m : List (String × β)}
    (h : WFmap m) : WFmap (aSet k v m) := by
  rw [aSet, WFmap, aKeys_cons, List.nodup_cons]
  refine ⟨?_, WFmap_aDel h⟩
  intro hmem
  obtain ⟨p, hp, hEq⟩ := mem_aKeys.mp hmem
  exact (mem_aDel.mp hp).2 hEq

theorem aGet_of_mem_WF {β : Type} {k : String} {v : β} {m : List (String × β)}
    (hwf : WFmap m) (h : (k, v) ∈ m) : aGet k m = some v := by
  induction m with
  | nil => simp at h
  | cons p rest ih =>
    obtain ⟨k1, v1⟩ := p
    rw [WFmap, aKeys_cons, List.nodup_cons] at hwf
    rcases List.mem_cons.mp h with hEq | hm
    · obtain ⟨hk, hv⟩ := Prod.ext_iff.mp hEq
      simp only at hk hv
      subst hk
      subst hv
      rw [aGet_cons, if_pos rfl]
    · by_cases hk : k1 = k
      · subst hk
        exact absurd (mem_aKeys.mpr ⟨(k1, v), hm, rfl⟩) hwf.1
      · rw [aGet_cons, if_neg hk]
        exact ih hwf.2 hm

theorem ite_isEmpty_ne_some_nil {α : Type} (l : List α) :
    (if l.isEmpty then (none : Option (List α)) else some l) ≠ some [] := by
  cases h : l.isEmpty
  · simp only [h, Bool.false_eq_true, if_false, ne_eq, Option.some.injEq]
    intro hEq
    subst hEq
    simp at h
  · simp [h]

theorem hasOther_eq_othersHold (s : GatewayState) (c q : String) (l : List String) :
    ((aSet c (sDel q l) s.clientSubscriptions).any (fun p => decide (q ∈ p.2))) =
      othersHold s c q := by
  unfold othersHold aSet
  rw [List.any_cons]
  have h : q ∉ sDel q l := fun hm => (mem_sDel.mp hm).2 rfl
  simp [h]

theorem unsubscribeFromQueue_not_mem (ok : Bool) (c q : String) (s : GatewayState)
    (h : q ∉ (aGet c s.clientSubscriptions).getD []) :
    unsubscribeFromQueue ok c q s = (s, []) := by
  simp only [unsubscribeFromQueue]
  rw [if_neg h]

theorem unsubscribeFromQueue_cs (ok : Bool) (c q : String) (s : GatewayState)
    (l : List String) (hget : aGet c s.clientSubscriptions = some l) (hq : q ∈ l) :
    (unsubscribeFromQueue ok c q s).1.clientSubscriptions =
      aSet c (sDel q l) s.clientSubscriptions := by
  simp only [unsubscribeFromQueue, hget, Option.getD_some]
  rw [if_pos hq]
  by_cases ho : (aSet c (sDel q l) s.clientSubscriptions).any (fun p => decide (q ∈ p.2))
  · simp only [ho, if_true]
  · simp only [ho, Bool.false_eq_true, if_false]
    cases ok <;> simp

theorem unsubscribeFromQueue_calls (ok : Bool) (c q : String) (s : GatewayState)
    (l : List String) (hget : aGet c s.clientSubscriptions = some l) (hq : q ∈ l) :
    (unsubscribeFromQueue ok c q s).2 =
      if othersHold s c q then [] else [FacadeCall.unsubscribe q] := by
  simp only [unsubscribeFromQueue, hget, Option.getD_some]
  rw [if_pos hq]
  rw [← hasOther_eq_othersHold s c q l]
  by_cases ho : (aSet c (sDel q l) s.clientSubscriptions).any (fun p => decide (q ∈ p.2))
  · simp only [ho, if_true]
  · simp only [ho, Bool.false_eq_true, if_false]
    cases ok <;> simp

theorem unsubscribeFromQueue_handlers (ok : Bool) (c q : String) (s : GatewayState)
    (l : List String) (hget : aGet c s.clientSubscriptions = some l) (hq : q ∈ l) :
    (unsubscribeFromQueue ok c q s).1.queueHandlers =
      if !(othersHold s c q) && ok then sDel q s.queueHandlers
      else s.queueHandlers := by
  simp only [unsubscribeFromQueue, hget, Option.getD_some]
  rw [if_pos hq]
  rw [← hasOther_eq_othersHold s c q l]
  by_cases ho : (aSet c (sDel q l) s.clientSubscriptions).any (fun p => decide (q ∈ p.2))
  · simp only [ho, if_true, Bool.not_true, Bool.false_and, Bool.false_eq_true, if_false]
  · simp only [ho, Bool.false_eq_true, if_false, Bool.not_false, Bool.true_and]
    cases ok <;> simp

theorem othersHold_mk_aSet (c q : String) (x : List String)
    (cs : List (String × List String)) (H H2 : List String) :
    othersHold ⟨aSet c x cs, H⟩ c q = othersHold ⟨cs, H2⟩ c q := by
  show (aDel c (aSet c x cs)).any _ = (aDel c cs).any _
  rw [aDel_aSet_self]

theorem othersHold_eq_true_iff (s : GatewayState) (c q : String) :
    othersHold s c q = true ↔ ∃ p ∈ aDel c s.clientSubscriptions, q ∈ p.2 := by
  unfold othersHold
  rw [List.any_eq_true]
  simp


theorem mem_fanoutRecipients {c q : String} {subs : List (String × List String)} :
    c ∈ fanoutRecipients q subs ↔ ∃ l, (c, l) ∈ subs ∧ q ∈ l := by
  unfold fanoutRecipients
  rw [List.mem_map]
  constructor
  · rintro ⟨p, hp, rfl⟩
    rw [List.mem_filter] at hp
    exact ⟨p.2, hp.1, of_decide_eq_true hp.2⟩
  · rintro ⟨l, hl, hq⟩
    refine ⟨(c, l), ?_, rfl⟩
    rw [List.mem_filter]
    exact ⟨hl, decide_eq_true hq⟩

theorem fanoutRecipients_nodup (q : String) (subs : List (String × List String))
    (hwf : WFmap subs) : (fanoutRecipients q subs).Nodup := by
  unfold WFmap aKeys at hwf
  unfold fanoutRecipients
  exact List.Nodup.sublist (List.Sublist.map _ (List.filter_sublist subs)) hwf

theorem count_fanout_emit (q : String) (m : QueueMessage) (socks : List String)
    (c : String) :
    ∀ rcpts : List String, rcpts.Nodup →
      ((rcpts.filterMap
        (fun cid => if cid ∈ socks then some (Emit.message cid q m) else none)).count
          (Emit.message c q m)) =
        if c ∈ rcpts ∧ c ∈ socks then 1 else 0 := by
  intro rcpts
  induction rcpts with
  | nil =>
    intro _
    simp
  | cons a rest ih =>
    intro hnd
    rw [List.nodup_cons] at hnd
    rw [List.filterMap_cons]
    by_cases hs : a ∈ socks
    · rw [if_pos hs, List.count_cons, ih hnd.2]
      by_cases hac : c = a
      · subst hac
        have hcr : c ∉ rest := hnd.1
        simp [hcr, hs]
      · have hca : ¬ (a = c) := fun hEq => hac hEq.symm
        simp [hac, hca, List.mem_cons]
    · rw [if_neg hs, ih hnd.2]
      by_cases hac : c = a
      · subst hac
        have hcr : c ∉ rest := hnd.1
        simp [hcr, hs]
      · have hca : ¬ (a = c) := fun hEq => hac hEq.symm
        simp [hac, hca, List.mem_cons]

theorem fanout_count (q : String) (subs : List (String × List String))
    (socks : List String) (m : QueueMessage) (c : String) (hwf : WFmap subs) :
    (fanout q subs socks m).count (Emit.message c q m) =
      if q ∈ (aGet c subs).getD [] ∧ c ∈ socks then 1 else 0 := by
  unfold fanout
  rw [count_fanout_emit q m socks c (fanoutRecipients q subs)
    (fanoutRecipients_nodup q subs hwf)]
  by_cases h : q ∈ (aGet c subs).getD []
  · have hc : c ∈ fanoutRecipients q subs := by
      apply mem_fanoutRecipients.mpr
      cases ha : aGet c subs with
      | none =>
        rw [ha] at h
        simp at h
      | some l =>
        rw [ha] at h
        exact ⟨l, aGet_mem ha, h⟩
    by_cases hs : c ∈ socks
    · rw [if_pos ⟨hc, hs⟩, if_pos ⟨h, hs⟩]
    · rw [if_neg (fun hx => hs hx.2), if_neg (fun hx => hs hx.2)]
  · have hc : c ∉ fanoutRecipients q subs := by
      intro hx
      obtain ⟨l, hl, hq⟩ := mem_fanoutRecipients.mp hx
      rw [aGet_of_mem_WF hwf hl] at h
      exact h hq
    rw [if_neg (fun hx => hc hx.1), if_neg (fun hx => h hx.1)]

theorem aGet_after_unsubscribe (ok : Bool) (c q : String) (s : GatewayState)
    (hwf : gatewayWF s) :
    q ∉ (aGet c (unsubscribeFromQueue ok c q s).1.clientSubscriptions).getD [] ∧
    WFmap (unsubscribeFromQueue ok c q s).1.clientSubscriptions := by
  by_cases h : q ∈ (aGet c s.clientSubscriptions).getD []
  · cases hget : aGet c s.clientSubscriptions with
    | none =>
      rw [hget] at h
      simp at h
    | some l =>
      rw [hget] at h
      simp only [Option.getD_some] at h
      have hcs := unsubscribeFromQueue_cs ok c q s l hget h
      constructor
      · rw [hcs, aGet_aSet_self]
        intro hmem
        exact (mem_sDel.mp hmem).2 rfl
      · rw [hcs]
        exact WFmap_aSet hwf
  · rw [unsubscribeFromQueue_not_mem ok c q s h]
    exact ⟨h, hwf⟩

/-! ### Claim theorems -/

/-- Claim C5: if the connection's interest-set already contains the queue,
a second subscribe request emits the already-subscribed confirmation,
leaves all multiplexer state unchanged, and issues no facade subscribe. -/
theorem C5_duplicate_subscribe (facadeOk : Bool) (c q : String) (s : GatewayState)
    (h : q ∈ (aGet c s.clientSubscriptions).getD []) :
    handleSubscribe facadeOk c q s =
      ⟨s, [Emit.subscribed q true], [], false⟩ := by
  unfold handleSubscribe
  rw [if_pos h]

/-- Witness for C5 at a concrete state with one existing subscription. -/
theorem C5_duplicate_subscribe_witness :
    "q1" ∈ (aGet "c1" [("c1", ["q1"])]).getD [] ∧
    handleSubscribe true "c1" "q1" ⟨[("c1", ["q1"])], ["q1"]⟩ =
      ⟨⟨[("c1", ["q1"])], ["q1"]⟩, [Emit.subscribed "q1" true], [], false⟩ :=
  ⟨by decide, C5_duplicate_subscribe true "c1" "q1" ⟨[("c1", ["q1"])], ["q1"]⟩ (by decide)⟩

/-- Claim C9: unsubscribing a connection from a queue not in its
interest-set is a no-op on all state and still emits the success
confirmation; and for a queue with no active adapter-level subscription,
each adapter's unsubscribe succeeds without touching the backend (the
SQS branch performs only the two local bookkeeping steps and issues no
backend command at all; the RabbitMQ branch issues no channel action). -/
theorem C9_unsubscribe_idempotent (ok : Bool) (c q : String) (s : GatewayState)
    (sq : SqsState) (rs : RabbitState)
    (hg : q ∉ (aGet c s.clientSubscriptions).getD [])
    (hlive : q ∉ sq.subscribedQueues)
    (hti : aGet q sq.pollingIntervals = none)
    (hcons : aGet q rs.consumers = none) :
    handleUnsubscribe ok c q s = ⟨s, [Emit.unsubscribed q], [], false⟩ ∧
    sqsUnsubscribe sq q = (sq, [SqsAction.removeLive q]) ∧
    rabbitUnsubscribe rs q = (rs, []) := by
  refine ⟨?_, ?_, ?_⟩
  · unfold handleUnsubscribe
    rw [unsubscribeFromQueue_not_mem ok c q s hg]
  · unfold sqsUnsubscribe
    rw [hti, sDel_of_not_mem hlive]
  · unfold rabbitUnsubscribe
    rw [hcons]

/-- Witness for C9 at concrete states with no matching registration. -/
theorem C9_unsubscribe_idempotent_witness :
    handleUnsubscribe true "c1" "q0" ⟨[("c1", ["q1"])], ["q1"]⟩ =
      ⟨⟨[("c1", ["q1"])], ["q1"]⟩, [Emit.unsubscribed "q0"], [], false⟩ ∧
    sqsUnsubscribe ⟨[("q1", "u1")], [("q1", 3)], ["q1"], 4⟩ "q0" =
      (⟨[("q1", "u1")], [("q1", 3)], ["q1"], 4⟩, [SqsAction.removeLive "q0"]) ∧
    rabbitUnsubscribe ⟨[("q1", "t1")]⟩ "q0" = (⟨[("q1", "t1")]⟩, []) :=
  C9_unsubscribe_idempotent true "c1" "q0" ⟨[("c1", ["q1"])], ["q1"]⟩
    ⟨[("q1", "u1")], [("q1", 3)], ["q1"], 4⟩ ⟨[("q1", "t1")]⟩
    (by decide) (by decide) (by decide) (by decide)

/-- Claim C10: every delivered message has a string body (the SQS adapter
substitutes the empty string for a missing backend body, though published
bodies are validated non-empty), an attributes field that is a non-empty
map or absent but never an empty map; the RabbitMQ adapter keeps string
headers, coerces number and boolean header values to strings, and drops
every other header value. -/
theorem C10_delivered_message_shape :
    (∀ m : SqsMessage, (translateSqsMessage m).attributes ≠ some []) ∧
    (∀ m : SqsMessage, m.body = none → (translateSqsMessage m).body = "") ∧
    (∀ (m : SqsMessage) (b : String), m.body = some b → (translateSqsMessage m).body = b) ∧
    (∀ m : QueueMessage, publishBodyAccepted m = true → m.body ≠ "") ∧
    (∀ m : RabbitDelivery, (translateRabbitDelivery m).attributes ≠ some [] ∧
      (translateRabbitDelivery m).body = m.content) ∧
    (∀ (hs : List (String × RabbitHeaderValue)) (k v : String),
      (k, RabbitHeaderValue.str v) ∈ hs → (k, v) ∈ translateRabbitHeaders hs) ∧
    (∀ (hs : List (String × RabbitHeaderValue)) (k : String) (n : Int),
      (k, RabbitHeaderValue.num n) ∈ hs → (k, toString n) ∈ translateRabbitHeaders hs) ∧
    (∀ (hs : List (String × RabbitHeaderValue)) (k : String) (b : Bool),
      (k, RabbitHeaderValue.boolean b) ∈ hs →
        (k, if b then "true" else "false") ∈ translateRabbitHeaders hs) ∧
    (∀ (hs : List (String × RabbitHeaderValue)) (k v : String),
      (k, v) ∈ translateRabbitHeaders hs →
        ∃ hv, (k, hv) ∈ hs ∧ coerceHeaderValue hv = some v) ∧
    coerceHeaderValue RabbitHeaderValue.other = none := by
  refine ⟨?_, ?_, ?_, ?_, ?_, ?_, ?_, ?_, ?_, rfl⟩
  · intro m
    exact ite_isEmpty_ne_some_nil _
  · intro m h
    simp [translateSqsMessage, h]
  · intro m b h
    simp [translateSqsMessage, h]
  · intro m h
    simpa [publishBodyAccepted] using h
  · intro m
    exact ⟨ite_isEmpty_ne_some_nil _, rfl⟩
  · intro hs k v h
    apply List.mem_filterMap.mpr
    exact ⟨(k, RabbitHeaderValue.str v), h, rfl⟩
  · intro hs k n h
    apply List.mem_filterMap.mpr
    exact ⟨(k, RabbitHeaderValue.num n), h, rfl⟩
  · intro hs k b h
    apply List.mem_filterMap.mpr
    exact ⟨(k, RabbitHeaderValue.boolean b), h, rfl⟩
  · intro hs k v h
    obtain ⟨p, hp, hf⟩ := List.mem_filterMap.mp h
    obtain ⟨w, hw, hEq⟩ := Option.map_eq_some'.mp hf
    obtain ⟨h1, h2⟩ := Prod.ext_iff.mp hEq
    simp only at h1 h2
    refine ⟨p.2, ?_, ?_⟩
    · rw [← h1]
      exact hp
    · rw [hw, h2]

/-- Witness for C10 on a concrete bodyless SQS message and a concrete
numeric RabbitMQ header. -/
theorem C10_delivered_message_shape_witness :
    (translateSqsMessage ⟨some "m1", none, some "r1", [("a", ⟨some "x"⟩)]⟩).body = "" ∧
    ("n", "5") ∈ translateRabbitHeaders
      [("n", RabbitHeaderValue.num 5), ("z", RabbitHeaderValue.other)] := by
  constructor
  · exact C10_delivered_message_shape.2.1 ⟨some "m1", none, some "r1", [("a", ⟨some "x"⟩)]⟩ rfl
  · have h := C10_delivered_message_shape.2.2.2.2.2.2.1
      [("n", RabbitHeaderValue.num 5), ("z", RabbitHeaderValue.other)] "n" 5 (by decide)
    simpa using h

/-- Claim C6: with the queue live throughout a poll cycle, the polling
adapter invokes the handler once per message of the batch, in order and
regardless of earlier handler throws, and issues one delete per message
whose handler succeeded and none for a message whose handler threw; the
event-driven consume callback acks a delivery exactly once when the
handler succeeds and nacks it exactly once with requeue enabled when the
handler throws. -/
theorem C6_handler_failure_outcome (hres : QueueMessage → Bool) (t : Nat)
    (msgs : List SqsMessage) (m? : Option RabbitDelivery) :
    handlerCalls (processBatch (fun _ => true) hres t msgs) =
      msgs.map translateSqsMessage ∧
    deleteReceipts (processBatch (fun _ => true) hres t msgs) =
      (msgs.filter (fun m => hres (translateSqsMessage m))).filterMap
        (fun m => m.receiptHandle) ∧
    consumeCallback hres m? =
      (match m? with
       | none => ([], [])
       | some m =>
         ([translateRabbitDelivery m],
          if hres (translateRabbitDelivery m) then [DeliveryAction.ack]
          else [DeliveryAction.nack false true])) := by
  refine ⟨?_, ?_, ?_⟩
  · induction msgs generalizing t with
    | nil => rfl
    | cons m rest ih =>
      unfold processBatch
      by_cases hh : hres (translateSqsMessage m)
      · cases hr : m.receiptHandle with
        | some r =>
          simp only [hh, hr, if_true, handlerCalls, List.filterMap_cons, List.map_cons]
          exact congrArg _ (ih (t + 2))
        | none =>
          simp only [hh, hr, if_true, handlerCalls, List.filterMap_cons, List.map_cons]
          exact congrArg _ (ih (t + 1))
      · simp only [hh, if_true, if_false, Bool.false_eq_true, handlerCalls,
          List.filterMap_cons, List.map_cons]
        exact congrArg _ (ih (t + 1))
  · induction msgs generalizing t with
    | nil => rfl
    | cons m rest ih =>
      unfold processBatch
      by_cases hh : hres (translateSqsMessage m)
      · cases hr : m.receiptHandle with
        | some r =>
          simp only [hh, hr, if_true, deleteReceipts, List.filterMap_cons, List.filter_cons]
          exact congrArg _ (ih (t + 2))
        | none =>
          simp only [hh, hr, if_true, deleteReceipts, List.filterMap_cons, List.filter_cons]
          exact ih (t + 1)
      · simp only [hh, if_true, if_false, Bool.false_eq_true, deleteReceipts,
          List.filterMap_cons, List.filter_cons]
        exact ih (t + 1)
  · cases m? with
    | none => rfl
    | some m =>
      unfold consumeCallback
      by_cases hh : hres (translateRabbitDelivery m) <;> simp [hh]

/-- Claim C3 fails on the code: the fan-out loop of part_010 lines 89-97
has no per-recipient try/catch, so with clients c1 and c2 both subscribed
to q1 and the send to c1 throwing, the loop delivers to nobody at all —
in particular c2, a fan-out recipient whose own send would have
succeeded, does not receive the message in that invocation. -/
theorem C3_fanout_isolation_counterexample :
    "c2" ∈ fanoutRecipients "q1" [("c1", ["q1"]), ("c2", ["q1"])] ∧
    (fun c => c == "c1") "c2" = false ∧
    fanoutDelivered (fun c => c == "c1") ["c1", "c2"]
      (fanoutRecipients "q1" [("c1", ["q1"]), ("c2", ["q1"])]) = [] := by
  decide

/-- Claim C3 amended: during one fan-out invocation, delivery proceeds in
registry order and stops at the first connection whose transport send
throws; exactly the live-socket recipients strictly before that
connection receive the message, and every recipient after it receives
nothing in that invocation. Failure isolation holds only when no send
throws. -/
theorem C3_fanout_failure_prefix (fails : String → Bool) (socks rs : List String) :
    fanoutDelivered fails socks rs =
      (rs.filter (fun c => decide (c ∈ socks))).takeWhile (fun c => !(fails c)) := by
  induction rs with
  | nil => rfl
  | cons c rest ih =>
    by_cases hs : c ∈ socks
    · by_cases hf : fails c = true
      · simp [fanoutDelivered, hs, hf, List.takeWhile_cons]
      · simp only [Bool.not_eq_true] at hf
        simp [fanoutDelivered, hs, hf, List.takeWhile_cons, ih]
    · simp [fanoutDelivered, hs, ih]

/-- Claim C8: resubscribing a queue fully retires the old registration
before installing the new one. Polling adapter: the existing timer is
cleared and the live-set entry removed before the new poll loop is marked
live and scheduled, and the timer registry keeps at most one entry per
queue; event-driven adapter: the existing consumer is cancelled on the
channel before the new consumer is registered, and the consumer registry
keeps at most one entry per queue. -/
theorem C8_replace_not_stack (sq : SqsState) (rs : RabbitState) (q tag : String)
    (hwfs : WFmap sq.pollingIntervals) (hwfr : WFmap rs.consumers) :
    WFmap (sqsSubscribe sq q).1.pollingIntervals ∧
    aGet q (sqsSubscribe sq q).1.pollingIntervals = some sq.nextIntervalId ∧
    (∀ id, aGet q sq.pollingIntervals = some id →
      (sqsSubscribe sq q).2 =
        [SqsAction.removeLive q, SqsAction.clearTimer id, SqsAction.markLive q,
         SqsAction.pollTriggered q, SqsAction.scheduleTimer q sq.nextIntervalId]) ∧
    (aGet q sq.pollingIntervals = none →
      (sqsSubscribe sq q).2 =
        [SqsAction.markLive q, SqsAction.pollTriggered q,
         SqsAction.scheduleTimer q sq.nextIntervalId]) ∧
    WFmap (rabbitSubscribe rs q tag).1.consumers ∧
    aGet q (rabbitSubscribe rs q tag).1.consumers = some tag ∧
    (∀ old, aGet q rs.consumers = some old →
      (rabbitSubscribe rs q tag).2 =
        [ChannelAction.assertQueue q, ChannelAction.cancel old,
         ChannelAction.consume q tag]) ∧
    (aGet q rs.consumers = none →
      (rabbitSubscribe rs q tag).2 =
        [ChannelAction.assertQueue q, ChannelAction.consume q tag]) := by
  refine ⟨?_, ?_, ?_, ?_, ?_, ?_, ?_, ?_⟩
  · unfold sqsSubscribe
    cases h : aGet q sq.pollingIntervals with
    | some id => exact WFmap_aSet (WFmap_aDel hwfs)
    | none => exact WFmap_aSet hwfs
  · unfold sqsSubscribe
    cases h : aGet q sq.pollingIntervals with
    | some id => exact aGet_aSet_self
    | none => exact aGet_aSet_self
  · intro id h
    unfold sqsSubscribe
    rw [h]
    rfl
  · intro h
    unfold sqsSubscribe
    rw [h]
    rfl
  · unfold rabbitSubscribe
    cases h : aGet q rs.consumers with
    | some old =>
      simp only [Option.isSome_some, if_true]
      unfold rabbitUnsubscribe
      rw [h]
      exact WFmap_aSet (WFmap_aDel hwfr)
    | none =>
      simp only [Option.isSome_none, Bool.false_eq_true, if_false]
      exact WFmap_aSet hwfr
  · unfold rabbitSubscribe
    cases h : aGet q rs.consumers with
    | some old =>
      simp only [Option.isSome_some, if_true]
      exact aGet_aSet_self
    | none =>
      simp only [Option.isSome_none, Bool.false_eq_true, if_false]
      exact aGet_aSet_self
  · intro old h
    unfold rabbitSubscribe rabbitUnsubscribe
    rw [h]
    rfl
  · intro h
    unfold rabbitSubscribe
    rw [h]
    rfl

/-- Witness for C8 at concrete adapter states that already hold a
registration for the queue being resubscribed. -/
theorem C8_replace_not_stack_witness :
    aGet "q1" (sqsSubscribe ⟨[], [("q1", 3)], ["q1"], 7⟩ "q1").1.pollingIntervals = some 7 ∧
    (sqsSubscribe ⟨[], [("q1", 3)], ["q1"], 7⟩ "q1").2 =
      [SqsAction.removeLive "q1", SqsAction.clearTimer 3, SqsAction.markLive "q1",
       SqsAction.pollTriggered "q1", SqsAction.scheduleTimer "q1" 7] ∧
    (rabbitSubscribe ⟨[("q1", "t1")]⟩ "q1" "t2").2 =
      [ChannelAction.assertQueue "q1", ChannelAction.cancel "t1",
       ChannelAction.consume "q1" "t2"] := by
  have h := C8_replace_not_stack ⟨[], [("q1", 3)], ["q1"], 7⟩ ⟨[("q1", "t1")]⟩ "q1" "t2"
    (by unfold WFmap; decide) (by unfold WFmap; decide)
  exact ⟨h.2.1, h.2.2.1 3 (by decide), h.2.2.2.2.2.2.1 "t1" (by decide)⟩

theorem handlerInvoked_mem_processBatch_live {live : Nat → Bool}
    {hres : QueueMessage → Bool} :
    ∀ (t : Nat) (msgs : List SqsMessage) (time : Nat) (qm : QueueMessage) (ok : Bool),
      PollEvent.handlerInvoked time qm ok ∈ processBatch live hres t msgs →
      live time = true := by
  intro t msgs
  induction msgs generalizing t with
  | nil =>
    intro time qm ok h
    simp [processBatch] at h
  | cons m rest ih =>
    intro time qm ok h
    unfold processBatch at h
    by_cases hl : live t = true
    · rw [if_pos hl] at h
      by_cases hh : hres (translateSqsMessage m)
      · rw [if_pos hh] at h
        cases hr : m.receiptHandle with
        | some r =>
          rw [hr] at h
          rcases List.mem_cons.mp h with hEq | h2
          · injection hEq with htime
            rw [htime]
            exact hl
          · rcases List.mem_cons.mp h2 with hEq2 | h3
            · exact absurd hEq2 (by simp)
            · exact ih (t + 2) time qm ok h3
        | none =>
          rw [hr] at h
          rcases List.mem_cons.mp h with hEq | h2
          · injection hEq with htime
            rw [htime]
            exact hl
          · exact ih (t + 1) time qm ok h2
      · rw [if_neg hh] at h
        rcases List.mem_cons.mp h with hEq | h2
        · injection hEq with htime
          rw [htime]
          exact hl
        · exact ih (t + 1) time qm ok h2
    · rw [if_neg hl] at h
      simp at h

/-- Claim C7: the polling adapter's unsubscribe removes the queue from the
live-set as its first step, before the timer is cancelled, and leaves no
live-set entry or timer registration; and in any poll cycle — including
one in flight — every handler invocation is guarded by a liveness check
at the same suspension index, so once the live-set stops containing the
queue from step `T` on (which is the state after unsubscribe returns),
no handler invocation occurs at or after `T`. -/
theorem C7_no_delivery_after_unsubscribe (live : Nat → Bool)
    (hres : QueueMessage → Bool) (t T : Nat) (msgs : List SqsMessage)
    (hdead : ∀ τ, T ≤ τ → live τ = false) :
    (∀ time qm ok,
      PollEvent.handlerInvoked time qm ok ∈ pollCycle live hres t msgs →
      time < T) ∧
    (∀ (sq : SqsState) (q : String),
      (sqsUnsubscribe sq q).2.head? = some (SqsAction.removeLive q) ∧
      q ∉ (sqsUnsubscribe sq q).1.subscribedQueues ∧
      aGet q (sqsUnsubscribe sq q).1.pollingIntervals = none) := by
  constructor
  · intro time qm ok h
    have hlive : live time = true := by
      unfold pollCycle at h
      by_cases h1 : live t = true
      · rw [if_pos h1] at h
        by_cases h2 : live (t + 1) = true
        · rw [if_pos h2] at h
          exact handlerInvoked_mem_processBatch_live (t + 2) msgs time qm ok h
        · rw [if_neg h2] at h
          simp at h
      · rw [if_neg h1] at h
        simp at h
    by_contra hge
    push_neg at hge
    rw [hdead time hge] at hlive
    exact absurd hlive (by simp)
  · intro sq q
    refine ⟨?_, ?_, ?_⟩
    · unfold sqsUnsubscribe
      cases h : aGet q sq.pollingIntervals <;> rfl
    · unfold sqsUnsubscribe
      cases h : aGet q sq.pollingIntervals with
      | some id =>
        intro hmem
        exact (mem_sDel.mp hmem).2 rfl
      | none =>
        intro hmem
        exact (mem_sDel.mp hmem).2 rfl
    · unfold sqsUnsubscribe
      cases h : aGet q sq.pollingIntervals with
      | some id => exact aGet_aDel_self
      | none => exact h

/-- Witness for C7: a cycle triggered at step 0 under a live-set that dies
at step 5 invokes the handler at step 2, before the unsubscribe; and the
concrete unsubscribe leaves no live-set entry. -/
theorem C7_no_delivery_after_unsubscribe_witness :
    (2 : Nat) < 5 ∧
    "q1" ∉ (sqsUnsubscribe ⟨[], [("q1", 3)], ["q1"], 4⟩ "q1").1.subscribedQueues := by
  have h := C7_no_delivery_after_unsubscribe liveUntil5 (fun _ => true) 0 5 [sqsMsg0]
    (by
      intro τ hτ
      simp only [liveUntil5, decide_eq_false_iff_not]
      omega)
  exact ⟨h.1 2 (translateSqsMessage sqsMsg0) true (by decide),
    (h.2 ⟨[], [("q1", 3)], ["q1"], 4⟩ "q1").2.1⟩


/-- Claim C2: when the per-queue fan-out handler fires, the message is
emitted exactly once to each connection whose interest-set contains the
queue at that moment (and whose socket is live), and zero times to every
other connection; because the handler reads the live registry, a
connection that unsubscribed before the delivery receives nothing. -/
theorem C2_fanout_exactly_once (q : String) (subs : List (String × List String))
    (socks : List String) (m : QueueMessage) (c : String) (hwf : WFmap subs) :
    ((fanout q subs socks m).count (Emit.message c q m) =
      if q ∈ (aGet c subs).getD [] ∧ c ∈ socks then 1 else 0) ∧
    (∀ (ok : Bool) (c1 : String) (s : GatewayState), gatewayWF s →
      (fanout q (handleUnsubscribe ok c1 q s).state.clientSubscriptions socks m).count
        (Emit.message c1 q m) = 0) := by
  refine ⟨fanout_count q subs socks m c hwf, ?_⟩
  intro ok c1 s hs
  have hstate : (handleUnsubscribe ok c1 q s).state = (unsubscribeFromQueue ok c1 q s).1 := rfl
  rw [hstate]
  obtain ⟨hnq, hwf2⟩ := aGet_after_unsubscribe ok c1 q s hs
  rw [fanout_count q (unsubscribeFromQueue ok c1 q s).1.clientSubscriptions socks m c1 hwf2]
  rw [if_neg (fun hx => hnq hx.1)]

/-- Witness for C2: two subscribers of q1 and one bystander; the first
subscriber receives exactly one copy. -/
theorem C2_fanout_exactly_once_witness :
    (fanout "q1" [("c1", ["q1"]), ("c2", ["q1"]), ("c3", [])] ["c1", "c2", "c3"]
      ⟨none, "hello", none⟩).count
        (Emit.message "c1" "q1" ⟨none, "hello", none⟩) = 1 := by
  have h := C2_fanout_exactly_once "q1" [("c1", ["q1"]), ("c2", ["q1"]), ("c3", [])]
    ["c1", "c2", "c3"] ⟨none, "hello", none⟩ "c1" (by unfold WFmap; decide)
  rw [h.1]
  decide

theorem disconnect_foldl_state (okf : String → Bool) (c : String) :
    ∀ (l : List String) (s : GatewayState) (acc : List FacadeCall) (lc : List String),
      gatewayWF s → aGet c s.clientSubscriptions = some lc →
      aGet c (l.foldl (disconnectStep okf c) (s, acc)).1.clientSubscriptions =
          some (l.foldl (fun a q => sDel q a) lc) ∧
      gatewayWF (l.foldl (disconnectStep okf c) (s, acc)).1 ∧
      aDel c (l.foldl (disconnectStep okf c) (s, acc)).1.clientSubscriptions =
          aDel c s.clientSubscriptions := by
  intro l
  induction l with
  | nil =>
    intro s acc lc hwf hget
    exact ⟨hget, hwf, rfl⟩
  | cons q0 rest ih =>
    intro s acc lc hwf hget
    rw [List.foldl_cons, List.foldl_cons]
    by_cases hq0 : q0 ∈ lc
    · have hcs := unsubscribeFromQueue_cs (okf q0) c q0 s lc hget hq0
      have hget1 : aGet c (disconnectStep okf c (s, acc) q0).1.clientSubscriptions =
          some (sDel q0 lc) := by
        show aGet c (unsubscribeFromQueue (okf q0) c q0 s).1.clientSubscriptions = _
        rw [hcs, aGet_aSet_self]
      have hwf1 : gatewayWF (disconnectStep okf c (s, acc) q0).1 := by
        show WFmap (unsubscribeFromQueue (okf q0) c q0 s).1.clientSubscriptions
        rw [hcs]
        exact WFmap_aSet hwf
      have hdel1 : aDel c (disconnectStep okf c (s, acc) q0).1.clientSubscriptions =
          aDel c s.clientSubscriptions := by
        show aDel c (unsubscribeFromQueue (okf q0) c q0 s).1.clientSubscriptions = _
        rw [hcs, aDel_aSet_self]
      have hpair : disconnectStep okf c (s, acc) q0 =
          ((disconnectStep okf c (s, acc) q0).1, (disconnectStep okf c (s, acc) q0).2) := rfl
      rw [hpair]
      obtain ⟨ha, hb, hc2⟩ := ih (disconnectStep okf c (s, acc) q0).1
        (disconnectStep okf c (s, acc) q0).2 (sDel q0 lc) hwf1 hget1
      exact ⟨ha, hb, hc2.trans hdel1⟩
    · have hnm : q0 ∉ (aGet c s.clientSubscriptions).getD [] := by
        rw [hget]
        simpa using hq0
      have hstep : disconnectStep okf c (s, acc) q0 = (s, acc ++ []) := by
        unfold disconnectStep
        rw [unsubscribeFromQueue_not_mem (okf q0) c q0 s hnm]
      rw [hstep, sDel_of_not_mem hq0]
      exact ih s (acc ++ []) lc hwf hget

theorem disconnect_foldl_calls (okf : String → Bool) (c : String) :
    ∀ (l : List String) (s : GatewayState) (acc : List FacadeCall) (lc : List String),
      gatewayWF s → aGet c s.clientSubscriptions = some lc → l.Nodup →
      (l.foldl (disconnectStep okf c) (s, acc)).2 =
        acc ++ (l.filter (fun q => decide (q ∈ lc) && !(othersHold s c q))).map
          FacadeCall.unsubscribe := by
  intro l
  induction l with
  | nil =>
    intro s acc lc hwf hget hnd
    simp
  | cons q0 rest ih =>
    intro s acc lc hwf hget hnd
    rw [List.nodup_cons] at hnd
    rw [List.foldl_cons, List.filter_cons]
    by_cases hq0 : q0 ∈ lc
    · have hcs := unsubscribeFromQueue_cs (okf q0) c q0 s lc hget hq0
      have hcalls := unsubscribeFromQueue_calls (okf q0) c q0 s lc hget hq0
      have hget1 : aGet c (disconnectStep okf c (s, acc) q0).1.clientSubscriptions =
          some (sDel q0 lc) := by
        show aGet c (unsubscribeFromQueue (okf q0) c q0 s).1.clientSubscriptions = _
        rw [hcs, aGet_aSet_self]
      have hwf1 : gatewayWF (disconnectStep okf c (s, acc) q0).1 := by
        show WFmap (unsubscribeFromQueue (okf q0) c q0 s).1.clientSubscriptions
        rw [hcs]
        exact WFmap_aSet hwf
      have hothers : ∀ x, othersHold (disconnectStep okf c (s, acc) q0).1 c x =
          othersHold s c x := by
        intro x
        unfold othersHold
        have hsame : (disconnectStep okf c (s, acc) q0).1.clientSubscriptions =
            (unsubscribeFromQueue (okf q0) c q0 s).1.clientSubscriptions := rfl
        rw [hsame, hcs, aDel_aSet_self]
      have hpair : disconnectStep okf c (s, acc) q0 =
          ((disconnectStep okf c (s, acc) q0).1, (disconnectStep okf c (s, acc) q0).2) := rfl
      rw [hpair]
      rw [ih (disconnectStep okf c (s, acc) q0).1 (disconnectStep okf c (s, acc) q0).2
        (sDel q0 lc) hwf1 hget1 hnd.2]
      have hfc : rest.filter (fun x => decide (x ∈ sDel q0 lc) &&
            !(othersHold (disconnectStep okf c (s, acc) q0).1 c x)) =
          rest.filter (fun x => decide (x ∈ lc) && !(othersHold s c x)) := by
        apply List.filter_congr
        intro x hx
        have hxne : x ≠ q0 := fun hEq => hnd.1 (hEq ▸ hx)
        have hdec : decide (x ∈ sDel q0 lc) = decide (x ∈ lc) :=
          decide_eq_decide.mpr
            ⟨fun hp => (mem_sDel.mp hp).1, fun hp => mem_sDel.mpr ⟨hp, hxne⟩⟩
        rw [hdec, hothers x]
      rw [hfc]
      have hacc : (disconnectStep okf c (s, acc) q0).2 =
          acc ++ (unsubscribeFromQueue (okf q0) c q0 s).2 := rfl
      rw [hacc, hcalls]
      by_cases ho : othersHold s c q0
      · simp [hq0, ho]
      · simp [hq0, ho]
    · have hnm : q0 ∉ (aGet c s.clientSubscriptions).getD [] := by
        rw [hget]
        simpa using hq0
      have hstep : disconnectStep okf c (s, acc) q0 = (s, acc ++ []) := by
        unfold disconnectStep
        rw [unsubscribeFromQueue_not_mem (okf q0) c q0 s hnm]
      rw [hstep]
      have hcond : (decide (q0 ∈ lc) && !(othersHold s c q0)) = false := by
        simp [hq0]
      rw [hcond]
      simp only [Bool.false_eq_true, if_false]
      rw [ih s (acc ++ []) lc hwf hget hnd.2, List.append_nil]

/-- Claim C4: when the connection whose interest-set was the last one
containing the queue removes it, the facade unsubscribe is invoked
exactly once; when another connection still holds the queue, it is not
invoked at all; and disconnect performs this per-queue cleanup once for
each queue of the interest-set (facade unsubscribe exactly once per
queue whose last holder disconnected, never for the others). -/
theorem C4_last_subscriber_teardown (okf : String → Bool) (ok : Bool) (c q : String)
    (s : GatewayState) (l : List String)
    (hwf : gatewayWF s) (hget : aGet c s.clientSubscriptions = some l) (hq : q ∈ l) :
    (othersHold s c q = false →
      (unsubscribeFromQueue ok c q s).2 = [FacadeCall.unsubscribe q]) ∧
    (othersHold s c q = true → (unsubscribeFromQueue ok c q s).2 = []) ∧
    (l.Nodup → ∀ q1 ∈ l,
      (handleDisconnect okf c s).2.count (FacadeCall.unsubscribe q1) =
        if othersHold s c q1 then 0 else 1) := by
  refine ⟨?_, ?_, ?_⟩
  · intro ho
    rw [unsubscribeFromQueue_calls ok c q s l hget hq]
    simp [ho]
  · intro ho
    rw [unsubscribeFromQueue_calls ok c q s l hget hq]
    simp [ho]
  · intro hnd q1 hq1
    have hl : (handleDisconnect okf c s).2 = (l.foldl (disconnectStep okf c) (s, [])).2 := by
      simp only [handleDisconnect, hget, Option.getD_some]
    rw [hl]
    rw [disconnect_foldl_calls okf c l s [] l hwf hget hnd, List.nil_append]
    rw [List.count_map_of_injective _ FacadeCall.unsubscribe
      (fun a b hab => by injection hab) q1]
    by_cases ho : othersHold s c q1
    · rw [if_pos ho]
      apply List.count_eq_zero.mpr
      intro hmem
      rw [List.mem_filter] at hmem
      rw [ho] at hmem
      simp at hmem
    · rw [if_neg ho]
      have hcond : (decide (q1 ∈ l) && !(othersHold s c q1)) = true := by
        simp [hq1, ho]
      exact List.count_eq_one_of_mem (List.Nodup.filter _ hnd)
        (List.mem_filter.mpr ⟨hq1, hcond⟩)

/-- Witness for C4: c1 holds q1 (alone) and q2 (shared with c2); explicit
unsubscribe from q1 calls the facade once, and disconnect of c1 never
calls facade unsubscribe for q2. -/
theorem C4_last_subscriber_teardown_witness :
    (unsubscribeFromQueue true "c1" "q1"
      ⟨[("c1", ["q1", "q2"]), ("c2", ["q2"])], ["q1", "q2"]⟩).2 =
        [FacadeCall.unsubscribe "q1"] ∧
    (handleDisconnect (fun _ => true) "c1"
      ⟨[("c1", ["q1", "q2"]), ("c2", ["q2"])], ["q1", "q2"]⟩).2.count
        (FacadeCall.unsubscribe "q2") = 0 := by
  have h := C4_last_subscriber_teardown (fun _ => true) true "c1" "q1"
    ⟨[("c1", ["q1", "q2"]), ("c2", ["q2"])], ["q1", "q2"]⟩ ["q1", "q2"]
    (by unfold gatewayWF WFmap; decide) (by decide) (by decide)
  constructor
  · exact h.1 (by decide)
  · have h2 := h.2.2 (by decide) "q2" (by decide)
    rw [h2]
    decide

theorem foldl_sDel_eq_nil : ∀ (l acc : List String), (∀ x ∈ acc, x ∈ l) →
    l.foldl (fun a q => sDel q a) acc = [] := by
  intro l
  induction l with
  | nil =>
    intro acc h
    cases acc with
    | nil => rfl
    | cons a rest => exact absurd (h a (List.mem_cons_self a rest)) (by simp)
  | cons q0 rest ih =>
    intro acc h
    rw [List.foldl_cons]
    apply ih
    intro x hx
    obtain ⟨hxa, hxq⟩ := mem_sDel.mp hx
    rcases List.mem_cons.mp (h x hxa) with hEq | hm
    · exact absurd hEq hxq
    · exact hm

theorem registryInv_handleConnection (c : String) (s : GatewayState)
    (hfresh : aGet c s.clientSubscriptions = none) (hinv : registryInv s) :
    registryInv (handleConnection c s) := by
  obtain ⟨hinv1, hinv2⟩ := hinv
  unfold handleConnection registryInv
  rw [aSet, aDel_of_aGet_none hfresh]
  constructor
  · intro x hx
    obtain ⟨p, hp, hxp⟩ := hinv1 x hx
    exact ⟨p, List.mem_cons_of_mem _ hp, hxp⟩
  · intro p hp x hx
    rcases List.mem_cons.mp hp with hEq | hm
    · subst hEq
      simp at hx
    · exact hinv2 p hm x hx

theorem registryInv_extend (c q : String) (cs : List (String × List String))
    (l H H2 : List String) (hwf : WFmap cs)
    (hget : (aGet c cs).getD [] = l)
    (hinv : registryInv ⟨cs, H⟩)
    (hH2a : ∀ x ∈ H, x ∈ H2) (hH2b : q ∈ H2) (hH2c : ∀ x ∈ H2, x ∈ H ∨ x = q) :
    registryInv ⟨aSet c (sAdd q l) cs, H2⟩ := by
  obtain ⟨hinv1, hinv2⟩ := hinv
  constructor
  · intro x hx
    rcases hH2c x hx with hxH | hxq
    · obtain ⟨p, hp, hxp⟩ := hinv1 x hxH
      by_cases hc : p.1 = c
      · have hpp : aGet c cs = some p.2 := by
          rw [← hc]
          exact aGet_of_mem_WF hwf hp
        rw [hpp] at hget
        simp only [Option.getD_some] at hget
        refine ⟨(c, sAdd q l), List.mem_cons_self _ _, ?_⟩
        show x ∈ sAdd q l
        rw [← hget]
        exact mem_sAdd.mpr (Or.inl hxp)
      · exact ⟨p, List.mem_cons_of_mem _ (mem_aDel.mpr ⟨hp, hc⟩), hxp⟩
    · exact ⟨(c, sAdd q l), List.mem_cons_self _ _, mem_sAdd.mpr (Or.inr hxq)⟩
  · intro p hp x hx
    rcases List.mem_cons.mp hp with hEq | hm
    · subst hEq
      have hx2 : x ∈ sAdd q l := hx
      rcases mem_sAdd.mp hx2 with hxl | hxq
      · cases ha : aGet c cs with
        | none =>
          rw [ha] at hget
          simp only [Option.getD_none] at hget
          rw [← hget] at hxl
          simp at hxl
        | some l0 =>
          rw [ha] at hget
          simp only [Option.getD_some] at hget
          have hx0 : x ∈ l0 := by
            rw [hget]
            exact hxl
          exact hH2a x (hinv2 (c, l0) (aGet_mem ha) x hx0)
      · rw [hxq]
        exact hH2b
    · obtain ⟨hpcs, _⟩ := mem_aDel.mp hm
      exact hH2a x (hinv2 p hpcs x hx)

theorem registryInv_handleSubscribe (ok : Bool) (c q : String) (s : GatewayState)
    (hwf : gatewayWF s) (hinv : registryInv s)
    (hok : (handleSubscribe ok c q s).threw = false) :
    registryInv (handleSubscribe ok c q s).state := by
  by_cases h1 : q ∈ (aGet c s.clientSubscriptions).getD []
  · have hres : handleSubscribe ok c q s = ⟨s, [Emit.subscribed q true], [], false⟩ := by
      unfold handleSubscribe
      rw [if_pos h1]
    rw [hres]
    exact hinv
  · by_cases h2 : q ∈ s.queueHandlers
    · have hres : (handleSubscribe ok c q s).state =
          ⟨match aGet c s.clientSubscriptions with
           | none => aSet c [q] s.clientSubscriptions
           | some l => aSet c (sAdd q l) s.clientSubscriptions,
           s.queueHandlers⟩ := by
        unfold handleSubscribe
        rw [if_neg h1, if_pos h2]
      rw [hres]
      cases ha : aGet c s.clientSubscriptions with
      | none =>
        exact registryInv_extend c q s.clientSubscriptions [] s.queueHandlers
          s.queueHandlers hwf (by rw [ha]; rfl) hinv (fun x hx => hx) h2
          (fun x hx => Or.inl hx)
      | some l =>
        exact registryInv_extend c q s.clientSubscriptions l s.queueHandlers
          s.queueHandlers hwf (by rw [ha]; rfl) hinv (fun x hx => hx) h2
          (fun x hx => Or.inl hx)
    · have hok2 : ok = true := by
        cases hco : ok
        · exfalso
          have hthrew : (handleSubscribe false c q s).threw = true := by
            unfold handleSubscribe
            rw [if_neg h1, if_neg h2]
            rfl
          rw [hco] at hok
          rw [hthrew] at hok
          exact absurd hok (by simp)
        · rfl
      subst hok2
      have hres : (handleSubscribe true c q s).state =
          ⟨match aGet c s.clientSubscriptions with
           | none => aSet c [q] s.clientSubscriptions
           | some l => aSet c (sAdd q l) s.clientSubscriptions,
           s.queueHandlers ++ [q]⟩ := by
        unfold handleSubscribe
        rw [if_neg h1, if_neg h2]
        rfl
      rw [hres]
      cases ha : aGet c s.clientSubscriptions with
      | none =>
        exact registryInv_extend c q s.clientSubscriptions [] s.queueHandlers
          (s.queueHandlers ++ [q]) hwf (by rw [ha]; rfl) hinv
          (fun x hx => List.mem_append_left _ hx)
          (List.mem_append_right _ (List.mem_singleton.mpr rfl))
          (fun x hx => (List.mem_append.mp hx).imp id List.mem_singleton.mp)
      | some l =>
        exact registryInv_extend c q s.clientSubscriptions l s.queueHandlers
          (s.queueHandlers ++ [q]) hwf (by rw [ha]; rfl) hinv
          (fun x hx => List.mem_append_left _ hx)
          (List.mem_append_right _ (List.mem_singleton.mpr rfl))
          (fun x hx => (List.mem_append.mp hx).imp id List.mem_singleton.mp)

theorem registryInv_unsubscribe_true (c q : String) (s : GatewayState)
    (hwf : gatewayWF s) (hinv : registryInv s) :
    registryInv (unsubscribeFromQueue true c q s).1 := by
  obtain ⟨hinv1, hinv2⟩ := hinv
  by_cases h1 : q ∈ (aGet c s.clientSubscriptions).getD []
  · cases ha : aGet c s.clientSubscriptions with
    | none =>
      rw [ha] at h1
      simp at h1
    | some l =>
      rw [ha] at h1
      simp only [Option.getD_some] at h1
      have hcs := unsubscribeFromQueue_cs true c q s l ha h1
      have hh := unsubscribeFromQueue_handlers true c q s l ha h1
      unfold registryInv
      rw [hcs, hh]
      by_cases ho : othersHold s c q
      · simp only [ho, Bool.not_true, Bool.false_and, Bool.false_eq_true, if_false]
        constructor
        · intro x hx
          obtain ⟨p, hp, hxp⟩ := hinv1 x hx
          by_cases hc : p.1 = c
          · have hpp : aGet c s.clientSubscriptions = some p.2 := by
              rw [← hc]
              exact aGet_of_mem_WF hwf hp
            rw [ha] at hpp
            injection hpp with hpl
            by_cases hxq : x = q
            · obtain ⟨p2, hp2, hxp2⟩ := (othersHold_eq_true_iff s c q).mp ho
              refine ⟨p2, List.mem_cons_of_mem _ hp2, ?_⟩
              rw [hxq]
              exact hxp2
            · refine ⟨(c, sDel q l), List.mem_cons_self _ _, ?_⟩
              apply mem_sDel.mpr
              refine ⟨?_, hxq⟩
              rw [hpl]
              exact hxp
          · exact ⟨p, List.mem_cons_of_mem _ (mem_aDel.mpr ⟨hp, hc⟩), hxp⟩
        · intro p hp x hx
          rcases List.mem_cons.mp hp with hEq | hm
          · subst hEq
            have hx2 : x ∈ sDel q l := hx
            exact hinv2 (c, l) (aGet_mem ha) x (mem_sDel.mp hx2).1
          · exact hinv2 p (mem_aDel.mp hm).1 x hx
      · rw [Bool.not_eq_true] at ho
        simp only [ho, Bool.not_false, Bool.true_and, if_true]
        constructor
        · intro x hx
          obtain ⟨hxH, hxq⟩ := mem_sDel.mp hx
          obtain ⟨p, hp, hxp⟩ := hinv1 x hxH
          by_cases hc : p.1 = c
          · have hpp : aGet c s.clientSubscriptions = some p.2 := by
              rw [← hc]
              exact aGet_of_mem_WF hwf hp
            rw [ha] at hpp
            injection hpp with hpl
            refine ⟨(c, sDel q l), List.mem_cons_self _ _, ?_⟩
            apply mem_sDel.mpr
            refine ⟨?_, hxq⟩
            rw [hpl]
            exact hxp
          · exact ⟨p, List.mem_cons_of_mem _ (mem_aDel.mpr ⟨hp, hc⟩), hxp⟩
        · intro p hp x hx
          rcases List.mem_cons.mp hp with hEq | hm
          · subst hEq
            have hx2 : x ∈ sDel q l := hx
            obtain ⟨hxl, hxq⟩ := mem_sDel.mp hx2
            apply mem_sDel.mpr
            exact ⟨hinv2 (c, l) (aGet_mem ha) x hxl, hxq⟩
          · apply mem_sDel.mpr
            refine ⟨hinv2 p (mem_aDel.mp hm).1 x hx, ?_⟩
            intro hxq
            have hcontra : othersHold s c q = true := by
              apply (othersHold_eq_true_iff s c q).mpr
              refine ⟨p, hm, ?_⟩
              rw [← hxq]
              exact hx
            rw [hcontra] at ho
            exact absurd ho (by simp)
  · rw [unsubscribeFromQueue_not_mem true c q s h1]
    exact ⟨hinv1, hinv2⟩

theorem registryInv_delete_empty (c : String) (s : GatewayState)
    (hwf : gatewayWF s) (hinv : registryInv s)
    (hget : aGet c s.clientSubscriptions = some []) :
    registryInv ⟨aDel c s.clientSubscriptions, s.queueHandlers⟩ := by
  obtain ⟨hinv1, hinv2⟩ := hinv
  constructor
  · intro x hx
    obtain ⟨p, hp, hxp⟩ := hinv1 x hx
    by_cases hc : p.1 = c
    · have hpp : aGet c s.clientSubscriptions = some p.2 := by
        rw [← hc]
        exact aGet_of_mem_WF hwf hp
      rw [hget] at hpp
      injection hpp with hnil
      rw [← hnil] at hxp
      simp at hxp
    · exact ⟨p, mem_aDel.mpr ⟨hp, hc⟩, hxp⟩
  · intro p hp x hx
    exact hinv2 p (mem_aDel.mp hp).1 x hx

theorem registryInv_handleDisconnect (c : String) (s : GatewayState)
    (hwf : gatewayWF s) (hinv : registryInv s) :
    registryInv (handleDisconnect (fun _ => true) c s).1 := by
  cases ha : aGet c s.clientSubscriptions with
  | none =>
    have hres : (handleDisconnect (fun _ => true) c s).1 = s := by
      unfold handleDisconnect
      rw [ha]
      simp only [Option.getD_none, List.foldl_nil]
      rw [aDel_of_aGet_none ha]
    rw [hres]
    exact hinv
  | some l =>
    have hpres : ∀ (l2 : List String) (s2 : GatewayState) (acc : List FacadeCall),
        gatewayWF s2 ∧ registryInv s2 →
        gatewayWF (l2.foldl (disconnectStep (fun _ => true) c) (s2, acc)).1 ∧
        registryInv (l2.foldl (disconnectStep (fun _ => true) c) (s2, acc)).1 := by
      intro l2
      induction l2 with
      | nil =>
        intro s2 acc h
        exact h
      | cons q0 rest ih =>
        intro s2 acc h
        rw [List.foldl_cons]
        have hpair : disconnectStep (fun _ => true) c (s2, acc) q0 =
            ((disconnectStep (fun _ => true) c (s2, acc) q0).1,
             (disconnectStep (fun _ => true) c (s2, acc) q0).2) := rfl
        rw [hpair]
        apply ih
        constructor
        · exact (aGet_after_unsubscribe true c q0 s2 h.1).2
        · exact registryInv_unsubscribe_true c q0 s2 h.1 h.2
    obtain ⟨hgetF, hwfF, _⟩ := disconnect_foldl_state (fun _ => true) c l s [] l hwf ha
    have hempty : l.foldl (fun a q => sDel q a) l = [] :=
      foldl_sDel_eq_nil l l (fun x hx => hx)
    rw [hempty] at hgetF
    obtain ⟨hwfR, hinvR⟩ := hpres l s [] ⟨hwf, hinv⟩
    have hres : (handleDisconnect (fun _ => true) c s).1 =
        ⟨aDel c (l.foldl (disconnectStep (fun _ => true) c) (s, [])).1.clientSubscriptions,
         (l.foldl (disconnectStep (fun _ => true) c) (s, [])).1.queueHandlers⟩ := by
      unfold handleDisconnect
      rw [ha]
      rfl
    rw [hres]
    exact registryInv_delete_empty c
      (l.foldl (disconnectStep (fun _ => true) c) (s, [])).1 hwfR hinvR hgetF

/-- Claim C1 fails on the code: handleSubscribe records the queue in
queueHandlers before awaiting the facade subscribe, so when that call
fails the error propagates with the handler entry left behind while no
interest-set contains the queue; likewise, when the asynchronous facade
unsubscribe of the last holder fails, the handler entry is retained with
no interested connection. Both concrete states below violate the iff
invariant. -/
theorem C1_registry_invariant_counterexample :
    ¬ registryInv (handleSubscribe false "c1" "q1"
        (handleConnection "c1" ⟨[], []⟩)).state ∧
    registryInv ⟨[("c1", ["q1"])], ["q1"]⟩ ∧
    ¬ registryInv (unsubscribeFromQueue false "c1" "q1"
        ⟨[("c1", ["q1"])], ["q1"]⟩).1 := by
  refine ⟨?_, ?_, ?_⟩
  · unfold registryInv
    decide
  · unfold registryInv
    decide
  · unfold registryInv
    decide

/-- Claim C1 amended: the registry invariant (a queue is a key of the
handler map iff some connection's interest-set contains it) is preserved
by onConnect for a fresh connection, by every subscribe that does not
propagate a facade failure, by unsubscribe and disconnect whenever the
asynchronous facade unsubscribe succeeds — but not by the failure paths
exhibited in the counterexample. -/
theorem C1_registry_invariant_amended (s : GatewayState) (c q : String) (ok : Bool)
    (hwf : gatewayWF s) (hinv : registryInv s) :
    (aGet c s.clientSubscriptions = none → registryInv (handleConnection c s)) ∧
    ((handleSubscribe ok c q s).threw = false →
      registryInv (handleSubscribe ok c q s).state) ∧
    registryInv (unsubscribeFromQueue true c q s).1 ∧
    registryInv (handleUnsubscribe true c q s).state ∧
    registryInv (handleDisconnect (fun _ => true) c s).1 := by
  refine ⟨?_, ?_, ?_, ?_, ?_⟩
  · intro hfresh
    exact registryInv_handleConnection c s hfresh hinv
  · intro hok
    exact registryInv_handleSubscribe ok c q s hwf hinv hok
  · exact registryInv_unsubscribe_true c q s hwf hinv
  · exact registryInv_unsubscribe_true c q s hwf hinv
  · exact registryInv_handleDisconnect c s hwf hinv

/-- Witness for C1 amended: a fresh connect followed by a successful
subscribe keeps the invariant. -/
theorem C1_registry_invariant_witness :
    registryInv (handleSubscribe true "c1" "q1"
      (handleConnection "c1" ⟨[], []⟩)).state := by
  have h := C1_registry_invariant_amended (handleConnection "c1" ⟨[], []⟩) "c1" "q1" true
    (by unfold gatewayWF WFmap; decide)
    (by unfold registryInv; decide)
  exact h.2.1 (by decide)

end QueueMux
